import Mathlib

/-!
Shallow embedding of the process → analyze text-analytics pipeline
(`processor/process.py` and `analyzer/analyze.py`).

Python machine-level details that are not observable by the properties
checked here (timestamps, JSON serialisation, file IO) are omitted; numeric
ratios are modelled as rationals.  Character classes follow the ASCII
fragment of Python's regex classes, which covers every input appearing in
the development.
-/

namespace Pipeline

/-- ASCII fragment of the regex class `\w` used by `re.findall(r"\w+(?:[-']\w+)*", ...)`:
letters, digits and underscore. -/
def isWordChar (c : Char) : Bool := c.isAlphanum || c == '_'

/-- The apostrophe character, written by code point. -/
def apos : Char := Char.ofNat 39

/-- The joining characters of the token regex: hyphen and apostrophe. -/
def isJoin (c : Char) : Bool := c == '-' || c == apos

/-- Python whitespace for `str.strip` / the `\s` class (ASCII fragment). -/
def isSpace (c : Char) : Bool :=
  c == ' ' || c == Char.ofNat 9 || c == Char.ofNat 10 || c == Char.ofNat 13 ||
  c == Char.ofNat 11 || c == Char.ofNat 12

/-- Scanner for `re.findall(r"\w+(?:[-']\w+)*", text)`: `acc` holds the
characters of the token currently being matched, in reverse.  A token is a
maximal run of word characters, extended by groups of one hyphen/apostrophe
followed by at least one word character. -/
def tokCore (acc : List Char) : List Char → List (List Char)
  | [] => if acc.isEmpty then [] else [acc.reverse]
  | [c] =>
    if isWordChar c then tokCore (c :: acc) []
    else if acc.isEmpty then tokCore [] []
    else if isJoin c then [acc.reverse]
    else acc.reverse :: tokCore [] []
  | c :: c2 :: cs2 =>
    if isWordChar c then tokCore (c :: acc) (c2 :: cs2)
    else if acc.isEmpty then tokCore [] (c2 :: cs2)
    else if isJoin c then
      if isWordChar c2 then tokCore (c2 :: c :: acc) cs2
      else acc.reverse :: tokCore [] (c2 :: cs2)
    else acc.reverse :: tokCore [] (c2 :: cs2)

/-- `re.findall(r"\w+(?:[-']\w+)*", text, flags=re.UNICODE)` on a string. -/
def tokens (s : String) : List String := (tokCore [] s.data).map String.mk

/-- `str.lower()` (ASCII fragment). -/
def lowerStr (s : String) : String := String.mk (s.data.map Char.toLower)

/-- `" ".join(texts)` at the character level. -/
def joinSep : List (List Char) → List Char
  | [] => []
  | [d] => d
  | d :: d2 :: ds => d ++ ' ' :: joinSep (d2 :: ds)

/-- Fuel-driven worker for `firsts`; the fuel dominates the list length at
every call. -/
def firstsAux {α : Type} [DecidableEq α] : Nat → List α → List α
  | _, [] => []
  | 0, _ :: _ => []
  | fuel + 1, x :: xs => x :: firstsAux fuel (xs.filter (fun y => y ≠ x))

/-- First occurrences of the elements of `l`, in order: the iteration order
of a Python `Counter`/`dict` built by counting `l`. -/
def firsts {α : Type} [DecidableEq α] (l : List α) : List α :=
  firstsAux l.length l

/-- `Counter(l)[x]`: the number of occurrences of `x` in `l`. -/
def countOcc {α : Type} [DecidableEq α] (l : List α) (x : α) : Nat := l.count x

/-- `Counter(l).most_common()`: every distinct element with its count,
sorted by descending count; ties keep first-occurrence order (Python's
`most_common` is a stable descending sort over insertion order). -/
def mostCommon {α : Type} [DecidableEq α] (l : List α) : List (α × Nat) :=
  List.insertionSort (fun a b => b.2 ≤ a.2)
    ((firsts l).map (fun x => (x, countOcc l x)))

/-! ### Analyze stage (`analyzer/analyze.py`) -/

/-- `all_texts = " ".join(file["text"] for file in all_processed_files)`,
as a character list. -/
def corpusChars (docs : List String) : List Char := joinSep (docs.map String.data)

/-- `words = re.findall(r"\w+(?:[-']\w+)*", all_texts, flags=re.UNICODE)`. -/
def corpusWords (docs : List String) : List String :=
  (tokCore [] (corpusChars docs)).map String.mk

/-- `total_words_count = len(words)`. -/
def totalWords (docs : List String) : Nat := (corpusWords docs).length

/-- `unique_words_count = len(set(words))` (case-sensitive). -/
def uniqueWords (docs : List String) : Nat := (corpusWords docs).dedup.length

/-- `lower_words = [w.lower() for w in words]`. -/
def lowerWords (docs : List String) : List String := (corpusWords docs).map lowerStr

/-- One entry of `top_100_words`. -/
structure WordEntry where
  word : String
  count : Nat
  frequency : ℚ
deriving DecidableEq

/-- `top_100_words`: the 100 most common lower-cased words with
`frequency = count / total_words_count`. -/
def top100Words (docs : List String) : List WordEntry :=
  ((mostCommon (lowerWords docs)).take 100).map
    (fun p => ⟨p.1, p.2, (p.2 : ℚ) / (totalWords docs : ℚ)⟩)

/-- `jaccard_similarity(doc1_words, doc2_words)` as called at
`analyze.py:83`: the arguments are the documents' *text strings*, so
`set(...)` is a set of characters. -/
def jaccardSimilarity (doc1 doc2 : String) : ℚ :=
  if ((doc1.data ++ doc2.data).dedup).isEmpty then 0
  else ((doc1.data.dedup.filter (fun c => c ∈ doc2.data.dedup)).length : ℚ) /
    (((doc1.data ++ doc2.data).dedup).length : ℚ)

/-- One entry of `document_similarity`. -/
structure SimEntry where
  doc1 : String
  doc2 : String
  similarity : ℚ
deriving DecidableEq

/-- `document_similarity`: one record per pair `i < j` of loaded documents,
labelled `page_i.json` / `page_j.json`. -/
def documentSimilarity (docs : List String) : List SimEntry :=
  (List.range docs.length).flatMap (fun i =>
    ((List.range docs.length).drop (i + 1)).map (fun j =>
      ⟨s!"page_{i}.json", s!"page_{j}.json",
        jaccardSimilarity (docs.getD i "") (docs.getD j "")⟩))

/-- `bigrams = list(zip(words, words[1:]))`: consecutive pairs of the
case-preserved corpus token sequence. -/
def corpusBigrams (docs : List String) : List (String × String) :=
  (corpusWords docs).zip (corpusWords docs).tail

/-- One entry of `top_bigrams`. -/
structure BigramEntry where
  word : String × String
  count : Nat
deriving DecidableEq

/-- `top_bigrams`: the 100 most common bigrams. -/
def topBigrams (docs : List String) : List BigramEntry :=
  ((mostCommon (corpusBigrams docs)).take 100).map (fun p => ⟨p.1, p.2⟩)

/-- `avg_word_length = sum(len(w) for w in words) / total_words_count if
total_words_count > 0 else 0`. -/
def avgWordLengthCorpus (docs : List String) : ℚ :=
  if 0 < totalWords docs then
    (((corpusWords docs).map String.length).sum : ℚ) / (totalWords docs : ℚ)
  else 0

/-- The sentence-terminating characters of `re.split(r"[.!?]", ...)`. -/
def isSentenceEnd (c : Char) : Bool := c == '.' || c == '!' || c == '?'

/-- `sentences = re.split(r"[.!?]", all_texts); sentences = [s for s in
sentences if s.strip()]`: count of segments holding a non-space character. -/
def totalSentences (docs : List String) : Nat :=
  ((corpusChars docs).splitOnP isSentenceEnd).countP
    (fun seg => seg.any (fun c => !isSpace c))

/-- `avg_words_per_sentence = total_words_count / total_sentences if
total_sentences > 0 else 0`. -/
def avgWordsPerSentence (docs : List String) : ℚ :=
  if 0 < totalSentences docs then
    (totalWords docs : ℚ) / (totalSentences docs : ℚ)
  else 0

/-- The `readability` object of the final report, with the values assigned
to the keys exactly as `analyze.py:124-128` assigns them. -/
structure Readability where
  avg_sentence_length : ℚ
  avg_word_length : ℚ
  complexity_score : ℚ
deriving DecidableEq

/-- `final_report` (timestamp omitted). -/
structure FinalReport where
  documents_processed : Nat
  total_words : Nat
  unique_words : Nat
  top_100_words : List WordEntry
  document_similarity : List SimEntry
  top_bigrams : List BigramEntry
  readability : Readability
deriving DecidableEq

/-- The analyze stage's report over the loaded documents' texts, in input
order.  Note the `readability` assignments: the code stores the average
word length under `avg_sentence_length` and the words-per-sentence ratio
under `avg_word_length`. -/
def finalReport (docs : List String) : FinalReport :=
  { documents_processed := docs.length
    total_words := totalWords docs
    unique_words := uniqueWords docs
    top_100_words := top100Words docs
    document_similarity := documentSimilarity docs
    top_bigrams := topBigrams docs
    readability :=
      { avg_sentence_length := avgWordLengthCorpus docs
        avg_word_length := avgWordsPerSentence docs
        complexity_score := avgWordLengthCorpus docs * avgWordsPerSentence docs } }

/-! ### Completion gate (`wait_for_complete_file`, identical in both stages)

Time is modelled by the poll index: the `k`-th existence check happens at
elapsed time `k * interval` (the loop body is instantaneous, `time.sleep`
is exact).  `existsAt k` tells whether the marker file exists at the `k`-th
check.  The loop condition `time.time() - start < timeout` becomes
`k * interval < timeout`; `raise TimeoutError` is `Except.error ()`.  The
fuel starts above the number of polls the loop condition can admit, so with
a positive interval it is never exhausted. -/

/-- The polling loop of `wait_for_complete_file`. -/
def waitGo (existsAt : Nat → Bool) (timeout : Int) (interval : Nat) :
    Nat → Nat → Except Unit Bool
  | _, 0 => Except.error ()
  | k, fuel + 1 =>
    if ((k * interval : Nat) : Int) < timeout then
      if existsAt k then Except.ok true
      else waitGo existsAt timeout interval (k + 1) fuel
    else Except.error ()

/-- `wait_for_complete_file(path, timeout, interval)`. -/
def waitForCompleteFile (existsAt : Nat → Bool) (timeout : Int) (interval : Nat) :
    Except Unit Bool :=
  waitGo existsAt timeout interval 0 (timeout.toNat + 1)

/-! ### Process stage (`processor/process.py`) -/

/-- One element of the module-level `results` list: keys
`"HTML file"` and `"status"`. -/
structure FileOutcome where
  file : String
  status : String
deriving DecidableEq

/-- What happens to one raw file inside the `try` of `load_html_files`:
`ok content` when `open` and `f.read()` both succeed; `openFail` when
`open(...)` raises, which the `except` catches *before* any record was
appended; `readFail` when `open` succeeds — so the `success` record has
already been appended — and `f.read()` then raises inside the `try`. -/
inductive LoadOutcome where
  | ok (content : String)
  | openFail
  | readFail
deriving DecidableEq

/-- `outcome.isOk = true` iff the file was fully loaded. -/
def LoadOutcome.isOk : LoadOutcome → Bool
  | .ok _ => true
  | _ => false

/-- `outcome.isOpenFail = true` iff `open(...)` raised. -/
def LoadOutcome.isOpenFail : LoadOutcome → Bool
  | .openFail => true
  | _ => false

/-- `outcome.isReadFail = true` iff `open` succeeded but `f.read()` raised. -/
def LoadOutcome.isReadFail : LoadOutcome → Bool
  | .readFail => true
  | _ => false

/-- A raw directory listing: filename paired with that file's load
outcome. -/
abbrev RawDir := List (String × LoadOutcome)

/-- `sorted(glob.glob(...))`: the listing in lexicographic filename order
(code-point order, as Python compares strings). -/
def sortedFiles (files : RawDir) : RawDir :=
  List.insertionSort (fun a b => a.1.data ≤ b.1.data) files

/-- The records `load_html_files` appends to the module-level `results`
for one file, in order: the `success` record is appended right after
`open` succeeds, *before* the read; the `except` branch appends a
`failed` record whenever `open` or `f.read()` raised.  A file whose read
fails after a successful open therefore gets two records. -/
def fileRecords (f : String × LoadOutcome) : List FileOutcome :=
  match f.2 with
  | .ok _ => [⟨f.1, "success"⟩]
  | .openFail => [⟨f.1, "failed"⟩]
  | .readFail => [⟨f.1, "success"⟩, ⟨f.1, "failed"⟩]

/-- The full `results` list built while iterating the sorted listing. -/
def loadResults (files : RawDir) : List FileOutcome :=
  (sortedFiles files).flatMap fileRecords

/-- The `(filename, content)` pairs yielded by `load_html_files`: only
fully loaded files are yielded; failed files are skipped and the
iteration continues. -/
def loadYields (files : RawDir) : List (String × String) :=
  (sortedFiles files).filterMap (fun f =>
    match f.2 with
    | .ok c => some (f.1, c)
    | _ => none)

/-- The `page_<i>.json` artifacts written by the process loop: one per
yielded document, numbered from 1, holding that document's raw content
(the normalizer's output is a function of this content and is not needed
by the properties below). -/
def processedPages (files : RawDir) : List (String × String) :=
  (loadYields files).enum.map (fun p => (s!"page_{p.1 + 1}.json", p.2.2))

/-- The `status` dictionary written to `process_complete.json`
(timestamp omitted): note `"HTML files": i - 1` is the loop counter after
the loop, i.e. the number of *yielded* documents. -/
structure ProcessStatus where
  htmlFiles : Nat
  successful : Nat
  failed : Nat
  results : List FileOutcome
deriving DecidableEq

/-- The published `ProcessingStatus` of one process-stage run. -/
def processStatus (files : RawDir) : ProcessStatus :=
  { htmlFiles := (loadYields files).length
    successful := ((loadResults files).filter (fun r => r.status == "success")).length
    failed := ((loadResults files).filter (fun r => r.status == "failed")).length
    results := loadResults files }

/-! ### Per-document statistics (`analyze_text` in `process.py`) -/

/-- Units of the paragraph separator `(?:\r?\n){2,}`: greedily consume
`\r\n` or `\n` units, returning how many were consumed and the rest. -/
def newlineUnits : List Char → Nat × List Char
  | c1 :: c2 :: rest =>
    if c1 == Char.ofNat 13 && c2 == Char.ofNat 10 then
      ((newlineUnits rest).1 + 1, (newlineUnits rest).2)
    else if c1 == Char.ofNat 10 then
      ((newlineUnits (c2 :: rest)).1 + 1, (newlineUnits (c2 :: rest)).2)
    else (0, c1 :: c2 :: rest)
  | [c] => if c == Char.ofNat 10 then (1, []) else (0, [c])
  | [] => (0, [])
termination_by l => l.length
decreasing_by all_goals simp +arith [List.length_cons]

theorem newlineUnits_length (l : List Char) :
    (newlineUnits l).2.length + (newlineUnits l).1 ≤ l.length := by
  induction l using newlineUnits.induct <;>
    simp only [newlineUnits] <;> (try split_ifs) <;>
    simp_all [List.length_cons] <;> omega

/-- `re.split(r"(?:\r?\n){2,}", text)`: split at maximal runs of at least
two newline units, carrying the segment built so far (reversed). -/
def splitParagraphs (seg : List Char) : List Char → List (List Char)
  | [] => [seg.reverse]
  | c :: cs =>
    if 2 ≤ (newlineUnits (c :: cs)).1 then
      seg.reverse :: splitParagraphs [] (newlineUnits (c :: cs)).2
    else splitParagraphs (c :: seg) cs
termination_by l => l.length
decreasing_by
  · have hl := newlineUnits_length (c :: cs)
    omega
  · simp +arith [List.length_cons]

/-- The dictionary returned by `analyze_text`. -/
structure TextStats where
  words : Nat
  sentences : Nat
  paragraphs : Nat
  avg_word_length : ℚ
deriving DecidableEq

/-- `analyze_text(text)`. -/
def analyzeText (text : String) : TextStats :=
  let ws := tokens text
  let wordCount := ws.length
  let totalLen := (ws.map String.length).sum
  { words := wordCount
    sentences := (text.data.splitOnP isSentenceEnd).countP
      (fun seg => seg.any (fun c => !isSpace c))
    paragraphs := (splitParagraphs [] text.data).countP
      (fun seg => seg.any (fun c => !isSpace c))
    avg_word_length := if 0 < wordCount then (totalLen : ℚ) / (wordCount : ℚ) else 0 }

/-! ### Spec-side reference definitions

These two definitions follow the specification's words (not the source)
and exist only to be compared with the source-derived definitions above. -/

/-- Jaccard similarity over the two documents' distinct TOKEN sets, as the
spec defines it: `|set(tokens_i) ∩ set(tokens_j)| / |set(tokens_i) ∪
set(tokens_j)|`, 0 when the union is empty. -/
def specTokenJaccard (d1 d2 : String) : ℚ :=
  if ((tokens d1 ++ tokens d2).dedup).isEmpty then 0
  else (((tokens d1).dedup.filter (fun w => w ∈ (tokens d2).dedup)).length : ℚ) /
    (((tokens d1 ++ tokens d2).dedup).length : ℚ)

/-- The bigram list as the spec describes it: consecutive pairs over each
document's lower-cased token sequence taken independently, counts then
merged. -/
def specBigramList (docs : List String) : List (String × String) :=
  docs.flatMap (fun d =>
    let ws := (tokens d).map lowerStr
    ws.zip ws.tail)

/-- The bigram table as the spec describes it: top 100 of the per-document
bigram counts. -/
def specBigramTable (docs : List String) : List BigramEntry :=
  ((mostCommon (specBigramList docs)).take 100).map (fun p => ⟨p.1, p.2⟩)

end Pipeline

namespace Pipeline

/-! ### Tokenizer lemmas -/

theorem tokCore_cons (acc : List Char) (c : Char) (cs : List Char) :
    tokCore acc (c :: cs) =
      if isWordChar c then tokCore (c :: acc) cs
      else if acc.isEmpty then tokCore [] cs
      else if isJoin c then
        (match cs with
          | [] => [acc.reverse]
          | c2 :: cs2 =>
            if isWordChar c2 then tokCore (c2 :: c :: acc) cs2
            else acc.reverse :: tokCore [] (c2 :: cs2))
      else acc.reverse :: tokCore [] cs := by
  cases cs <;> rfl

theorem tokCore_skip (l : List Char) (c : Char) (h : isWordChar c = false) :
    tokCore [] (c :: l) = tokCore [] l := by
  rw [tokCore_cons, h]
  rfl

theorem tokCore_nil_of_noWord (w : List Char)
    (h : ∀ c ∈ w, isWordChar c = false) : tokCore [] w = [] := by
  induction w with
  | nil => rfl
  | cons c w ih =>
    rw [tokCore_skip w c (h c (List.mem_cons_self c w))]
    exact ih (fun x hx => h x (List.mem_cons_of_mem c hx))

theorem tokCore_drop_leading (w l : List Char)
    (h : ∀ c ∈ w, isWordChar c = false) :
    tokCore [] (w ++ l) = tokCore [] l := by
  induction w with
  | nil => rfl
  | cons c w ih =>
    rw [List.cons_append, tokCore_skip _ c (h c (List.mem_cons_self c w))]
    exact ih (fun x hx => h x (List.mem_cons_of_mem c hx))

theorem tokCore_flush (w : List Char)
    (h : ∀ c ∈ w, isWordChar c = false ∧ isJoin c = false) :
    ∀ acc, tokCore acc w = if acc.isEmpty then [] else [acc.reverse] := by
  induction w with
  | nil => intro acc; rfl
  | cons c w ih =>
    intro acc
    obtain ⟨hw, hj⟩ := h c (List.mem_cons_self c w)
    have h' : ∀ x ∈ w, isWordChar x = false ∧ isJoin x = false :=
      fun x hx => h x (List.mem_cons_of_mem c hx)
    rw [tokCore_cons, hw]
    cases acc with
    | nil => simpa using ih h' []
    | cons a as =>
      simp only [List.isEmpty_cons, Bool.false_eq_true, if_false, hj]
      rw [ih h' []]
      rfl

theorem tokCore_drop_trailing_aux :
    ∀ (n : Nat) (s : List Char), s.length ≤ n → ∀ (acc w : List Char),
      (∀ c ∈ w, isWordChar c = false ∧ isJoin c = false) →
      tokCore acc (s ++ w) = tokCore acc s := by
  intro n
  induction n with
  | zero =>
    intro s hs acc w h
    obtain rfl : s = [] := by cases s with | nil => rfl | cons => simp at hs
    rw [List.nil_append, tokCore_flush w h acc]
    rfl
  | succ n ih =>
    intro s hs acc w h
    cases s with
    | nil =>
      rw [List.nil_append, tokCore_flush w h acc]
      rfl
    | cons c s' =>
      rw [List.cons_append, tokCore_cons, tokCore_cons]
      by_cases hw : isWordChar c
      · rw [hw, if_pos rfl, if_pos rfl]
        exact ih s' (by simpa using hs) (c :: acc) w h
      · rw [eq_false_of_ne_true hw]
        simp only [Bool.false_eq_true, if_false]
        by_cases hacc : acc.isEmpty
        · rw [if_pos hacc, if_pos hacc]
          exact ih s' (by simpa using hs) [] w h
        · rw [if_neg hacc, if_neg hacc]
          by_cases hj : isJoin c
          · rw [hj, if_pos rfl, if_pos rfl]
            cases s' with
            | nil =>
              cases w with
              | nil => rfl
              | cons w1 w' =>
                obtain ⟨hw1, _⟩ := h w1 (List.mem_cons_self w1 w')
                simp only [List.nil_append, hw1, Bool.false_eq_true, if_false]
                rw [tokCore_nil_of_noWord (w1 :: w') (fun x hx => (h x hx).1)]
            | cons c2 s'' =>
              simp only [List.cons_append]
              by_cases hw2 : isWordChar c2
              · rw [hw2, if_pos rfl, if_pos rfl]
                exact ih s'' (by simp at hs; omega) (c2 :: c :: acc) w h
              · rw [eq_false_of_ne_true hw2]
                simp only [Bool.false_eq_true, if_false, List.cons.injEq, true_and]
                have := ih (c2 :: s'') (by simpa using hs) [] w h
                simpa using this
          · rw [eq_false_of_ne_true hj]
            simp only [Bool.false_eq_true, if_false, List.cons.injEq, true_and]
            exact ih s' (by simpa using hs) [] w h

theorem tokCore_drop_trailing (s acc w : List Char)
    (h : ∀ c ∈ w, isWordChar c = false ∧ isJoin c = false) :
    tokCore acc (s ++ w) = tokCore acc s :=
  tokCore_drop_trailing_aux s.length s (le_refl _) acc w h

theorem isSpace_inert (c : Char) (h : isSpace c = true) :
    isWordChar c = false ∧ isJoin c = false := by
  simp only [isSpace, Bool.or_eq_true, beq_iff_eq] at h
  rcases h with ((((h | h) | h) | h) | h) | h <;> subst h <;>
    exact ⟨by decide, by decide⟩

theorem tokCore_ne_nil :
    ∀ (n : Nat) (l acc : List Char), l.length ≤ n → acc ≠ [] →
      tokCore acc l ≠ [] := by
  intro n
  induction n with
  | zero =>
    intro l acc hl hacc
    obtain rfl : l = [] := by cases l with | nil => rfl | cons => simp at hl
    cases acc with
    | nil => exact absurd rfl hacc
    | cons a as => simp [tokCore]
  | succ n ih =>
    intro l acc hl hacc
    cases l with
    | nil =>
      cases acc with
      | nil => exact absurd rfl hacc
      | cons a as => simp [tokCore]
    | cons c cs =>
      rw [tokCore_cons]
      by_cases hw : isWordChar c
      · rw [hw, if_pos rfl]
        exact ih cs (c :: acc) (by simpa using hl) (by simp)
      · rw [eq_false_of_ne_true hw]
        simp only [Bool.false_eq_true, if_false]
        cases acc with
        | nil => exact absurd rfl hacc
        | cons a as =>
          simp only [List.isEmpty_cons, Bool.false_eq_true, if_false]
          by_cases hj : isJoin c
          · rw [hj, if_pos rfl]
            cases cs with
            | nil => simp
            | cons c2 cs2 =>
              by_cases hw2 : isWordChar c2
              · simp only [hw2, if_pos]
                exact ih cs2 (c2 :: c :: (a :: as)) (by simp at hl; omega)
                  (by simp)
              · simp [eq_false_of_ne_true hw2]
          · rw [eq_false_of_ne_true hj]
            simp

theorem tokCore_ne_nil_of_word :
    ∀ (l : List Char) (c : Char), c ∈ l → isWordChar c = true →
      tokCore [] l ≠ [] := by
  intro l
  induction l with
  | nil => intro c hc _; simp at hc
  | cons c0 l ih =>
    intro c hc hw
    by_cases hw0 : isWordChar c0
    · rw [tokCore_cons, hw0, if_pos rfl]
      exact tokCore_ne_nil l.length l [c0] (le_refl _) (by simp)
    · rw [tokCore_skip l c0 (eq_false_of_ne_true hw0)]
      rcases List.mem_cons.mp hc with rfl | hc'
      · exact absurd hw (by simpa using hw0)
      · exact ih c hc' hw

theorem noWord_of_tokens_nil (d : String) (h : tokens d = []) :
    ∀ c ∈ d.data, isWordChar c = false := by
  intro c hc
  by_contra hw
  have hw' : isWordChar c = true := by
    cases hval : isWordChar c with
    | false => exact absurd hval hw
    | true => rfl
  have hne := tokCore_ne_nil_of_word d.data c hc hw'
  have hnil : tokCore [] d.data = [] := by
    have h' : (tokCore [] d.data).map String.mk = [] := by simpa [tokens] using h
    exact List.map_eq_nil_iff.mp h'
  exact hne hnil

theorem mem_joinSep :
    ∀ (ls : List (List Char)) (c : Char), c ∈ joinSep ls →
      (∃ l ∈ ls, c ∈ l) ∨ c = ' ' := by
  intro ls
  induction ls using joinSep.induct with
  | case1 => intro c hc; simp [joinSep] at hc
  | case2 d => intro c hc; exact Or.inl ⟨d, by simp, by simpa [joinSep] using hc⟩
  | case3 d d2 ds ih =>
    intro c hc
    simp only [joinSep] at hc
    rcases List.mem_append.mp hc with h | h
    · exact Or.inl ⟨d, by simp, h⟩
    · rcases List.mem_cons.mp h with rfl | h2
      · exact Or.inr rfl
      · rcases ih c h2 with ⟨l, hl, hcl⟩ | rfl
        · exact Or.inl ⟨l, List.mem_cons_of_mem d hl, hcl⟩
        · exact Or.inr rfl

theorem corpusWords_eq_nil (docs : List String)
    (h : ∀ d ∈ docs, tokens d = []) : corpusWords docs = [] := by
  have hnw : ∀ c ∈ corpusChars docs, isWordChar c = false := by
    intro c hc
    rcases mem_joinSep (docs.map String.data) c hc with ⟨l, hl, hcl⟩ | rfl
    · obtain ⟨d, hd, rfl⟩ := List.mem_map.mp hl
      exact noWord_of_tokens_nil d (h d hd) c hcl
    · decide
  simp [corpusWords, tokCore_nil_of_noWord _ hnw]

/-! ### Counter / most_common lemmas -/

theorem firstsAux_congr {α : Type} [DecidableEq α] :
    ∀ (fuel fuel' : Nat) (l : List α), l.length ≤ fuel → l.length ≤ fuel' →
      firstsAux fuel l = firstsAux fuel' l := by
  intro fuel
  induction fuel with
  | zero =>
    intro fuel' l hl _
    obtain rfl : l = [] := by cases l with | nil => rfl | cons => simp at hl
    cases fuel' <;> rfl
  | succ fuel ih =>
    intro fuel' l hl hl'
    cases l with
    | nil => cases fuel' <;> rfl
    | cons x xs =>
      cases fuel' with
      | zero => simp at hl'
      | succ fuel' =>
        simp only [firstsAux, List.cons.injEq, true_and]
        exact ih fuel' (xs.filter (fun y => y ≠ x))
          (le_trans (List.length_filter_le _ _) (by simpa using hl))
          (le_trans (List.length_filter_le _ _) (by simpa using hl'))

theorem firsts_cons {α : Type} [DecidableEq α] (x : α) (xs : List α) :
    firsts (x :: xs) = x :: firsts (xs.filter (fun y => y ≠ x)) := by
  simp only [firsts, List.length_cons, firstsAux, List.cons.injEq, true_and]
  exact firstsAux_congr xs.length _ _ (List.length_filter_le _ _) (le_refl _)

theorem mem_firsts {α : Type} [DecidableEq α] :
    ∀ (n : Nat) (l : List α), l.length ≤ n → ∀ y, (y ∈ firsts l ↔ y ∈ l) := by
  intro n
  induction n with
  | zero =>
    intro l hl y
    obtain rfl : l = [] := by cases l with | nil => rfl | cons => simp at hl
    rfl
  | succ n ih =>
    intro l hl y
    cases l with
    | nil => rfl
    | cons x xs =>
      rw [firsts_cons]
      simp only [List.mem_cons]
      rw [ih (xs.filter (fun z => z ≠ x))
        (le_trans (List.length_filter_le _ _) (by simpa using hl)) y]
      simp only [List.mem_filter, ne_eq, decide_not, Bool.not_eq_eq_eq_not,
        Bool.not_true, decide_eq_false_iff_not]
      by_cases hyx : y = x
      · subst hyx; simp
      · simp [hyx]

theorem firsts_mem {α : Type} [DecidableEq α] (l : List α) (y : α) :
    y ∈ firsts l ↔ y ∈ l :=
  mem_firsts l.length l (le_refl _) y

theorem nodup_firsts {α : Type} [DecidableEq α] :
    ∀ (n : Nat) (l : List α), l.length ≤ n → (firsts l).Nodup := by
  intro n
  induction n with
  | zero =>
    intro l hl
    obtain rfl : l = [] := by cases l with | nil => rfl | cons => simp at hl
    exact List.nodup_nil
  | succ n ih =>
    intro l hl
    cases l with
    | nil => exact List.nodup_nil
    | cons x xs =>
      rw [firsts_cons]
      refine List.Nodup.cons ?_ (ih _ (le_trans (List.length_filter_le _ _)
        (by simpa using hl)))
      intro hx
      have := (firsts_mem (xs.filter (fun z => z ≠ x)) x).mp hx
      simp at this

theorem firsts_nodup {α : Type} [DecidableEq α] (l : List α) : (firsts l).Nodup :=
  nodup_firsts l.length l (le_refl _)

theorem firsts_toFinset {α : Type} [DecidableEq α] (l : List α) :
    (firsts l).toFinset = l.toFinset := by
  ext y
  simp [List.mem_toFinset, firsts_mem]

theorem length_firsts_eq_dedup {α : Type} [DecidableEq α] (l : List α) :
    (firsts l).length = l.dedup.length := by
  have hdf : l.dedup.toFinset = l.toFinset := by
    ext y; simp [List.mem_toFinset, List.mem_dedup]
  rw [← List.toFinset_card_of_nodup (firsts_nodup l),
    ← List.toFinset_card_of_nodup l.nodup_dedup, firsts_toFinset, hdf]

theorem sum_count_firsts {α : Type} [DecidableEq α] (l : List α) :
    ((firsts l).map (fun x => l.count x)).sum = l.length := by
  rw [← List.sum_toFinset _ (firsts_nodup l), firsts_toFinset]
  simp [Multiset.toFinset_sum_count_eq (l : Multiset α)]

/-- The descending-count order used by `most_common`. -/
instance {α : Type} : IsTotal (α × Nat) (fun a b => b.2 ≤ a.2) :=
  ⟨fun a b => Nat.le_total b.2 a.2⟩

instance {α : Type} : IsTrans (α × Nat) (fun a b => b.2 ≤ a.2) :=
  ⟨fun _ _ _ h1 h2 => le_trans h2 h1⟩

theorem mostCommon_perm {α : Type} [DecidableEq α] (l : List α) :
    (mostCommon l).Perm ((firsts l).map (fun x => (x, countOcc l x))) :=
  List.perm_insertionSort _ _

theorem mem_mostCommon {α : Type} [DecidableEq α] (l : List α)
    (p : α × Nat) (hp : p ∈ mostCommon l) :
    p.2 = countOcc l p.1 ∧ p.1 ∈ l := by
  have hmem := (mostCommon_perm l).mem_iff.mp hp
  obtain ⟨x, hx, rfl⟩ := List.mem_map.mp hmem
  exact ⟨rfl, (firsts_mem l x).mp hx⟩

theorem sorted_mostCommon {α : Type} [DecidableEq α] (l : List α) :
    List.Sorted (fun a b : α × Nat => b.2 ≤ a.2) (mostCommon l) :=
  List.sorted_insertionSort _ _

theorem length_mostCommon {α : Type} [DecidableEq α] (l : List α) :
    (mostCommon l).length = l.dedup.length := by
  rw [(mostCommon_perm l).length_eq, List.length_map, length_firsts_eq_dedup]

theorem sum_counts_mostCommon {α : Type} [DecidableEq α] (l : List α) :
    ((mostCommon l).map (fun p => p.2)).sum = l.length := by
  rw [List.Perm.sum_eq ((mostCommon_perm l).map (fun p => p.2))]
  rw [List.map_map]
  simpa [countOcc, Function.comp_def] using sum_count_firsts l

/-! ### Completion-gate lemmas -/

theorem waitGo_ok_iff (e : Nat → Bool) (t : Int) (i : Nat) (hi : 0 < i) :
    ∀ fuel k, t.toNat ≤ k + fuel →
      (waitGo e t i k fuel = Except.ok true ↔
        ∃ j, k ≤ j ∧ ((j * i : Nat) : Int) < t ∧ e j = true) := by
  intro fuel
  induction fuel with
  | zero =>
    intro k h
    simp only [waitGo]
    constructor
    · intro hc; exact absurd hc (by simp)
    · rintro ⟨j, hj1, hj2, _⟩
      have h1 : t ≤ (t.toNat : Int) := Int.self_le_toNat t
      have h2 : j ≤ j * i := Nat.le_mul_of_pos_right j hi
      omega
  | succ fuel ih =>
    intro k h
    simp only [waitGo]
    by_cases hc : ((k * i : Nat) : Int) < t
    · rw [if_pos hc]
      by_cases he : e k
      · simp only [he, if_pos]
        constructor
        · intro _; exact ⟨k, le_refl k, hc, he⟩
        · intro _; trivial
      · simp only [he, Bool.false_eq_true, if_false]
        rw [ih (k + 1) (by omega)]
        constructor
        · rintro ⟨j, hj1, hj2, hj3⟩; exact ⟨j, by omega, hj2, hj3⟩
        · rintro ⟨j, hj1, hj2, hj3⟩
          refine ⟨j, ?_, hj2, hj3⟩
          rcases Nat.eq_or_lt_of_le hj1 with rfl | hlt
          · exact absurd hj3 (by simp [he])
          · omega
    · rw [if_neg hc]
      constructor
      · intro hcontra; exact absurd hcontra (by simp)
      · rintro ⟨j, hj1, hj2, _⟩
        have h2 : k * i ≤ j * i := Nat.mul_le_mul_right i hj1
        omega

theorem waitGo_ok_or_error (e : Nat → Bool) (t : Int) (i : Nat) :
    ∀ fuel k, waitGo e t i k fuel = Except.ok true ∨
      waitGo e t i k fuel = Except.error () := by
  intro fuel
  induction fuel with
  | zero => intro k; simp [waitGo]
  | succ fuel ih =>
    intro k
    simp only [waitGo]
    by_cases hc : ((k * i : Nat) : Int) < t
    · rw [if_pos hc]
      by_cases he : e k
      · simp [he]
      · simpa [he] using ih (k + 1)
    · rw [if_neg hc]; right; rfl

theorem waitGo_congr (e e' : Nat → Bool) (t : Int) (i : Nat)
    (h : ∀ k, ((k * i : Nat) : Int) < t → e k = e' k) :
    ∀ fuel k, waitGo e t i k fuel = waitGo e' t i k fuel := by
  intro fuel
  induction fuel with
  | zero => intro k; rfl
  | succ fuel ih =>
    intro k
    simp only [waitGo]
    by_cases hc : ((k * i : Nat) : Int) < t
    · rw [if_pos hc, if_pos hc, h k hc, ih (k + 1)]
    · rw [if_neg hc, if_neg hc]

/-! ### C6: the gate returns success exactly when the marker is seen in time -/

/-- C6: with a positive poll interval, the gate returns success exactly
when the marker file exists at some poll whose elapsed time is below the
timeout, and in every other case it raises `TimeoutError` (the only two
outcomes are success and the timeout error; it never succeeds while the
marker is absent at every in-time poll). -/
theorem claim_C6_gate_success_iff_seen (existsAt : Nat → Bool) (timeout : Int)
    (interval : Nat) (hi : 0 < interval) :
    (waitForCompleteFile existsAt timeout interval = Except.ok true ↔
      ∃ k, ((k * interval : Nat) : Int) < timeout ∧ existsAt k = true) ∧
    (waitForCompleteFile existsAt timeout interval = Except.ok true ∨
      waitForCompleteFile existsAt timeout interval = Except.error ()) := by
  constructor
  · rw [waitForCompleteFile,
      waitGo_ok_iff existsAt timeout interval hi (timeout.toNat + 1) 0 (by omega)]
    constructor
    · rintro ⟨j, _, hj2, hj3⟩; exact ⟨j, hj2, hj3⟩
    · rintro ⟨j, hj2, hj3⟩; exact ⟨j, Nat.zero_le j, hj2, hj3⟩
  · exact waitGo_ok_or_error existsAt timeout interval (timeout.toNat + 1) 0

/-- Witness for C6 at a concrete schedule: marker appears at the third
poll (elapsed 6 < 10), gate timeout 10, interval 3. -/
theorem claim_C6_gate_success_iff_seen_witness :
    (waitForCompleteFile (fun k => decide (k = 2)) 10 3 = Except.ok true ↔
      ∃ k, ((k * 3 : Nat) : Int) < 10 ∧ decide (k = 2) = true) ∧
    (waitForCompleteFile (fun k => decide (k = 2)) 10 3 = Except.ok true ∨
      waitForCompleteFile (fun k => decide (k = 2)) 10 3 = Except.error ()) :=
  claim_C6_gate_success_iff_seen (fun k => decide (k = 2)) 10 3 (by decide)

/-! ### C10: a non-positive timeout raises before any existence check -/

/-- C10: with `timeout ≤ 0` the gate raises for *every* existence history,
in particular when the marker is present throughout, so no existence check
is observable; and the gate's outcome depends only on the existence values
at polls whose elapsed time is strictly below the timeout. -/
theorem claim_C10_gate_nonpositive_timeout (existsAt existsAt' : Nat → Bool)
    (timeout : Int) (interval : Nat) :
    (timeout ≤ 0 → waitForCompleteFile existsAt timeout interval = Except.error ()) ∧
    ((∀ k, ((k * interval : Nat) : Int) < timeout → existsAt k = existsAt' k) →
      waitForCompleteFile existsAt timeout interval =
        waitForCompleteFile existsAt' timeout interval) := by
  constructor
  · intro ht
    rw [waitForCompleteFile, Int.toNat_of_nonpos ht]
    simp only [waitGo]
    rw [if_neg (by simpa using ht)]
  · intro h
    rw [waitForCompleteFile, waitForCompleteFile,
      waitGo_congr existsAt existsAt' timeout interval h (timeout.toNat + 1) 0]

/-- Witness for C10: the marker exists from the start, yet with timeout
`-1` the gate raises; and two histories agreeing below the timeout (they
differ only at poll 7, elapsed 21 ≥ 10) yield the same outcome. -/
theorem claim_C10_gate_nonpositive_timeout_witness :
    waitForCompleteFile (fun _ => true) (-1) 3 = Except.error () ∧
    waitForCompleteFile (fun k => decide (k = 1)) 10 3 =
      waitForCompleteFile (fun k => decide (k = 1) || decide (k = 7)) 10 3 :=
  ⟨(claim_C10_gate_nonpositive_timeout (fun _ => true) (fun _ => true) (-1) 3).1
      (by norm_num),
   (claim_C10_gate_nonpositive_timeout (fun k => decide (k = 1))
      (fun k => decide (k = 1) || decide (k = 7)) 10 3).2 (by
        intro k hk
        have hk4 : k < 4 := by omega
        interval_cases k <;> rfl)⟩

/-! ### C8: shape of the word-frequency table -/

/-- C8: the word-frequency table has at most 100 entries and at most one
entry per distinct lower-cased token, is sorted by descending count (the
stable sort fixes tie order deterministically), every entry's frequency is
its count over `total_words`, and when `total_words > 0` the frequencies
of the full `most_common` table (all distinct words, not just the top 100)
sum to exactly 1. -/
theorem claim_C8_word_frequency_table (docs : List String) :
    (top100Words docs).length ≤ 100 ∧
    (top100Words docs).length ≤ (lowerWords docs).dedup.length ∧
    List.Sorted (fun a b : WordEntry => b.count ≤ a.count) (top100Words docs) ∧
    (∀ e ∈ top100Words docs,
      e.frequency = (e.count : ℚ) / (totalWords docs : ℚ)) ∧
    (0 < totalWords docs →
      ((mostCommon (lowerWords docs)).map
        (fun p => (p.2 : ℚ) / (totalWords docs : ℚ))).sum = 1) := by
  refine ⟨?_, ?_, ?_, ?_, ?_⟩
  · simp only [top100Words, List.length_map, List.length_take]
    exact le_trans (Nat.min_le_left _ _) (le_refl 100)
  · simp only [top100Words, List.length_map, List.length_take]
    rw [← length_mostCommon]
    exact Nat.min_le_right _ _
  · have hs : List.Sorted (fun a b : String × Nat => b.2 ≤ a.2)
        ((mostCommon (lowerWords docs)).take 100) :=
      List.Pairwise.sublist (List.take_sublist 100 _)
        (sorted_mostCommon (lowerWords docs))
    exact List.Pairwise.map _ (fun a b hab => hab) hs
  · intro e he
    obtain ⟨p, _, rfl⟩ := List.mem_map.mp he
    rfl
  · intro hT
    have hcast : (fun p : String × Nat => (p.2 : ℚ) / (totalWords docs : ℚ)) =
        fun p : String × Nat => (p.2 : ℚ) * ((totalWords docs : ℚ))⁻¹ := by
      funext p; rw [div_eq_mul_inv]
    rw [hcast, List.sum_map_mul_right]
    have hsum : ((mostCommon (lowerWords docs)).map
        (fun p : String × Nat => (p.2 : ℚ))).sum = (totalWords docs : ℚ) := by
      have h1 := sum_counts_mostCommon (lowerWords docs)
      have h2 : (lowerWords docs).length = totalWords docs := by
        simp [lowerWords, totalWords]
      have := congrArg (fun n : Nat => (n : ℚ)) h1
      simp only [Nat.cast_list_sum, List.map_map] at this
      rw [Function.comp_def] at this
      rw [this, h2]
    rw [hsum, mul_inv_cancel₀ (by exact_mod_cast Nat.pos_iff_ne_zero.mp hT)]

/-- Witness for C8 at the corpus `["a b a"]` (three tokens, two distinct),
with the frequency sum `2/3 + 1/3 = 1` discharged concretely. -/
theorem claim_C8_word_frequency_table_witness :
    (top100Words ["a b a"]).length ≤ 100 ∧
    (top100Words ["a b a"]).length ≤ (lowerWords ["a b a"]).dedup.length ∧
    List.Sorted (fun a b : WordEntry => b.count ≤ a.count)
      (top100Words ["a b a"]) ∧
    (∀ e ∈ top100Words ["a b a"],
      e.frequency = (e.count : ℚ) / (totalWords ["a b a"] : ℚ)) ∧
    ((mostCommon (lowerWords ["a b a"])).map
      (fun p => (p.2 : ℚ) / (totalWords ["a b a"] : ℚ))).sum = 1 :=
  ⟨(claim_C8_word_frequency_table ["a b a"]).1,
   (claim_C8_word_frequency_table ["a b a"]).2.1,
   (claim_C8_word_frequency_table ["a b a"]).2.2.1,
   (claim_C8_word_frequency_table ["a b a"]).2.2.2.1,
   (claim_C8_word_frequency_table ["a b a"]).2.2.2.2 (by decide)⟩

/-! ### C3: bigrams are taken over the joined, case-preserved corpus -/

/-- C3 (amended): the bigram table is built from the consecutive pairs of
the *case-preserved* token sequence of the space-joined corpus — so pairs
may cross document boundaries and are not lower-cased — and it holds the
top 100 such pairs by descending count with the stable-sort tie-break. -/
theorem claim_C3_bigrams_over_joined_corpus (docs : List String) :
    (topBigrams docs).length ≤ 100 ∧
    List.Sorted (fun a b : BigramEntry => b.count ≤ a.count) (topBigrams docs) ∧
    (∀ e ∈ topBigrams docs,
      e.count = countOcc (corpusBigrams docs) e.word ∧
        e.word ∈ corpusBigrams docs) := by
  refine ⟨?_, ?_, ?_⟩
  · simp only [topBigrams, List.length_map, List.length_take]
    exact Nat.min_le_left _ _
  · have hs : List.Sorted (fun a b : (String × String) × Nat => b.2 ≤ a.2)
        ((mostCommon (corpusBigrams docs)).take 100) :=
      List.Pairwise.sublist (List.take_sublist 100 _)
        (sorted_mostCommon (corpusBigrams docs))
    exact List.Pairwise.map _ (fun a b hab => hab) hs
  · intro e he
    obtain ⟨p, hp, rfl⟩ := List.mem_map.mp he
    have := mem_mostCommon (corpusBigrams docs) p
      (List.mem_of_mem_take hp)
    exact this

/-- Witness for C3 at the corpus `["A b", "c d"]` and the
boundary-crossing table entry `("b","c")`. -/
theorem claim_C3_bigrams_over_joined_corpus_witness :
    (⟨("b", "c"), 1⟩ : BigramEntry).count =
      countOcc (corpusBigrams ["A b", "c d"])
        (⟨("b", "c"), 1⟩ : BigramEntry).word ∧
    (⟨("b", "c"), 1⟩ : BigramEntry).word ∈ corpusBigrams ["A b", "c d"] :=
  (claim_C3_bigrams_over_joined_corpus ["A b", "c d"]).2.2
    ⟨("b", "c"), 1⟩ (by decide)

/-- Counterexample for C3 as stated: on the corpus `["A b", "c d"]` the
emitted table keeps the capitalised pair `("A","b")` and contains the
boundary-crossing pair `("b","c")`, while the table the claim describes
(per-document, lower-cased) has neither. -/
theorem claim_C3_counterexample :
    topBigrams ["A b", "c d"] =
      [⟨("A", "b"), 1⟩, ⟨("b", "c"), 1⟩, ⟨("c", "d"), 1⟩] ∧
    specBigramTable ["A b", "c d"] = [⟨("a", "b"), 1⟩, ⟨("c", "d"), 1⟩] ∧
    topBigrams ["A b", "c d"] ≠ specBigramTable ["A b", "c d"] := by decide

/-! ### C4: process-stage outcome records and status counts -/

theorem loadRecords_length (L : RawDir) :
    (L.flatMap fileRecords).length =
      L.length + L.countP (fun f => f.2.isReadFail) := by
  induction L with
  | nil => rfl
  | cons f L ih =>
    obtain ⟨name, o⟩ := f
    rw [List.flatMap_cons, List.length_append, ih, List.countP_cons,
      List.length_cons]
    cases o <;> simp [fileRecords, LoadOutcome.isReadFail] <;> omega

theorem loadRecords_success_length (L : RawDir) :
    ((L.flatMap fileRecords).filter (fun r => r.status == "success")).length =
      L.countP (fun f => f.2.isOk) + L.countP (fun f => f.2.isReadFail) := by
  induction L with
  | nil => rfl
  | cons f L ih =>
    obtain ⟨name, o⟩ := f
    rw [List.flatMap_cons, List.filter_append, List.length_append, ih,
      List.countP_cons, List.countP_cons]
    cases o <;>
      simp [fileRecords, LoadOutcome.isOk, LoadOutcome.isReadFail,
        List.filter] <;>
      omega

theorem loadRecords_failed_length (L : RawDir) :
    ((L.flatMap fileRecords).filter (fun r => r.status == "failed")).length =
      L.countP (fun f => f.2.isOpenFail) + L.countP (fun f => f.2.isReadFail) := by
  induction L with
  | nil => rfl
  | cons f L ih =>
    obtain ⟨name, o⟩ := f
    rw [List.flatMap_cons, List.filter_append, List.length_append, ih,
      List.countP_cons, List.countP_cons]
    cases o <;>
      simp [fileRecords, LoadOutcome.isOpenFail, LoadOutcome.isReadFail,
        List.filter] <;>
      omega

theorem loadYields_length (L : RawDir) :
    (L.filterMap (fun f =>
        match f.2 with
        | .ok c => some (f.1, c)
        | _ => none)).length = L.countP (fun f => f.2.isOk) := by
  induction L with
  | nil => rfl
  | cons f L ih =>
    obtain ⟨name, o⟩ := f
    cases o <;> simp [List.filterMap_cons, LoadOutcome.isOk,
      List.countP_cons, ih]

theorem loadOutcome_partition (L : RawDir) :
    L.countP (fun f => f.2.isOk) + L.countP (fun f => f.2.isOpenFail) +
      L.countP (fun f => f.2.isReadFail) = L.length := by
  induction L with
  | nil => rfl
  | cons f L ih =>
    obtain ⟨name, o⟩ := f
    rw [List.countP_cons, List.countP_cons, List.countP_cons, List.length_cons,
      ← ih]
    cases o <;>
      simp [LoadOutcome.isOk, LoadOutcome.isOpenFail,
        LoadOutcome.isReadFail] <;>
      omega

/-- C4 (amended): every enumerated raw file is recorded with status
`success` or `failed`; a file whose `open` raises gets exactly one
`failed` record, a fully loaded file gets exactly one `success` record,
but a file whose `f.read()` raises after a successful `open` gets *two*
records (the `success` appended before the read, then the `failed`), so
`results` holds one record per file plus one per read-failure.  A failed
load (either kind) yields no `page_<i>.json` artifact and does not stop
the run; the status's file-count field (`"HTML files": i - 1`) and the
artifact count both equal the number of fully loaded documents — not the
total file count — while `successful` counts loaded plus read-failed
files and `failed` counts open-failed plus read-failed files.  Only on a
run with no read failures is there exactly one record per file with
`successful + failed` equal to the total and the file-count field equal
to `successful`. -/
theorem claim_C4_status_counts (files : RawDir) :
    (∀ r ∈ (processStatus files).results,
      r.status = "success" ∨ r.status = "failed") ∧
    (processStatus files).results.length =
      files.length + files.countP (fun f => f.2.isReadFail) ∧
    (processedPages files).length = files.countP (fun f => f.2.isOk) ∧
    (processStatus files).htmlFiles = files.countP (fun f => f.2.isOk) ∧
    (processStatus files).successful =
      files.countP (fun f => f.2.isOk) +
        files.countP (fun f => f.2.isReadFail) ∧
    (processStatus files).failed =
      files.countP (fun f => f.2.isOpenFail) +
        files.countP (fun f => f.2.isReadFail) ∧
    (files.countP (fun f => f.2.isReadFail) = 0 →
      (processStatus files).results.length = files.length ∧
      (processStatus files).successful + (processStatus files).failed =
        files.length ∧
      (processStatus files).htmlFiles = (processStatus files).successful) := by
  have hperm : (sortedFiles files).Perm files := List.perm_insertionSort _ _
  have hok : (sortedFiles files).countP (fun f => f.2.isOk) =
      files.countP (fun f => f.2.isOk) := hperm.countP_eq _
  have hopen : (sortedFiles files).countP (fun f => f.2.isOpenFail) =
      files.countP (fun f => f.2.isOpenFail) := hperm.countP_eq _
  have hread : (sortedFiles files).countP (fun f => f.2.isReadFail) =
      files.countP (fun f => f.2.isReadFail) := hperm.countP_eq _
  have hlen : (sortedFiles files).length = files.length := hperm.length_eq
  have hsucc : (processStatus files).successful =
      files.countP (fun f => f.2.isOk) +
        files.countP (fun f => f.2.isReadFail) := by
    show ((loadResults files).filter (fun r => r.status == "success")).length = _
    rw [loadResults, loadRecords_success_length (sortedFiles files), hok, hread]
  have hfail : (processStatus files).failed =
      files.countP (fun f => f.2.isOpenFail) +
        files.countP (fun f => f.2.isReadFail) := by
    show ((loadResults files).filter (fun r => r.status == "failed")).length = _
    rw [loadResults, loadRecords_failed_length (sortedFiles files), hopen, hread]
  have hhtml : (processStatus files).htmlFiles =
      files.countP (fun f => f.2.isOk) := by
    show (loadYields files).length = _
    rw [loadYields, loadYields_length (sortedFiles files), hok]
  have hres : (processStatus files).results.length =
      files.length + files.countP (fun f => f.2.isReadFail) := by
    show (loadResults files).length = _
    rw [loadResults, loadRecords_length (sortedFiles files), hlen, hread]
  refine ⟨?_, hres, ?_, hhtml, hsucc, hfail, ?_⟩
  · show ∀ r ∈ loadResults files, r.status = "success" ∨ r.status = "failed"
    intro r hr
    obtain ⟨f, _, hrf⟩ := List.mem_flatMap.mp hr
    obtain ⟨name, o⟩ := f
    cases o <;> simp [fileRecords] at hrf <;>
      rcases hrf with rfl | rfl <;> simp
  · have hp : (processedPages files).length = (loadYields files).length := by
      rw [processedPages, List.length_map, List.enum_length]
    rw [hp]
    show (loadYields files).length = _
    rw [loadYields, loadYields_length (sortedFiles files), hok]
  · intro hzero
    have hpart := loadOutcome_partition files
    refine ⟨by rw [hres, hzero]; omega, by rw [hsucc, hfail]; omega,
      by rw [hhtml, hsucc, hzero]; omega⟩

/-- Witness for C4 at a directory with one loaded, one open-failed and
one read-failed file (the status hypothesis instantiated at the
read-failed file's spurious `success` record), plus the no-read-failure
conjunct discharged on a directory where only `open` ever fails. -/
theorem claim_C4_status_counts_witness :
    ((⟨"c.html", "success"⟩ : FileOutcome).status = "success" ∨
      (⟨"c.html", "success"⟩ : FileOutcome).status = "failed") ∧
    ((processStatus [("a.html", LoadOutcome.ok "x"),
        ("b.html", LoadOutcome.openFail)]).results.length =
      ([("a.html", LoadOutcome.ok "x"),
        ("b.html", LoadOutcome.openFail)] : RawDir).length ∧
    (processStatus [("a.html", LoadOutcome.ok "x"),
        ("b.html", LoadOutcome.openFail)]).successful +
      (processStatus [("a.html", LoadOutcome.ok "x"),
        ("b.html", LoadOutcome.openFail)]).failed =
      ([("a.html", LoadOutcome.ok "x"),
        ("b.html", LoadOutcome.openFail)] : RawDir).length ∧
    (processStatus [("a.html", LoadOutcome.ok "x"),
        ("b.html", LoadOutcome.openFail)]).htmlFiles =
      (processStatus [("a.html", LoadOutcome.ok "x"),
        ("b.html", LoadOutcome.openFail)]).successful) :=
  ⟨(claim_C4_status_counts [("a.html", LoadOutcome.ok "x"),
      ("b.html", LoadOutcome.openFail), ("c.html", LoadOutcome.readFail)]).1
      ⟨"c.html", "success"⟩ (by decide),
   (claim_C4_status_counts [("a.html", LoadOutcome.ok "x"),
      ("b.html", LoadOutcome.openFail)]).2.2.2.2.2.2 (by decide)⟩

/-- Counterexample for C4 as stated, on two traces the code admits.
With `a.html` loading and `b.html` failing at `open`, the status's
file-count field is 1 — the successfully processed count — not the total
file count 2.  And a file whose read fails after a successful open gets
*two* outcome records (a spurious `success` followed by `failed`), not
exactly one. -/
theorem claim_C4_counterexample :
    (processStatus [("a.html", LoadOutcome.ok "x"),
        ("b.html", LoadOutcome.openFail)]).htmlFiles = 1 ∧
    ([("a.html", LoadOutcome.ok "x"),
        ("b.html", LoadOutcome.openFail)] : RawDir).length = 2 ∧
    (processStatus [("a.html", LoadOutcome.ok "x"),
        ("b.html", LoadOutcome.openFail)]).htmlFiles ≠ 2 ∧
    (processStatus [("c.html", LoadOutcome.readFail)]).results =
      [⟨"c.html", "success"⟩, ⟨"c.html", "failed"⟩] ∧
    (processStatus [("c.html", LoadOutcome.readFail)]).results.length ≠
      ([("c.html", LoadOutcome.readFail)] : RawDir).length := by decide

/-! ### C5: degenerate corpora -/

/-- C5 (amended): on a degenerate corpus the analyze stage still produces
a report with no division fault: `documents_processed` is the document
count, the ranked lists are empty and every ratio is 0; with zero
documents the similarity list is empty too, but with two or more zero-word
documents it is *not* empty — one record per pair is still emitted
(computed over the texts' character sets). -/
theorem claim_C5_degenerate_corpus (docs : List String)
    (h : ∀ d ∈ docs, tokens d = []) :
    (finalReport docs).documents_processed = docs.length ∧
    (finalReport docs).total_words = 0 ∧
    (finalReport docs).unique_words = 0 ∧
    (finalReport docs).top_100_words = [] ∧
    (finalReport docs).top_bigrams = [] ∧
    (finalReport docs).readability = ⟨0, 0, 0⟩ ∧
    (docs = [] → (finalReport docs).document_similarity = []) ∧
    (2 ≤ docs.length → (finalReport docs).document_similarity ≠ []) := by
  have hw : corpusWords docs = [] := corpusWords_eq_nil docs h
  have hT : totalWords docs = 0 := by simp [totalWords, hw]
  have hlw : lowerWords docs = [] := by simp [lowerWords, hw]
  have hA : avgWordLengthCorpus docs = 0 := by
    simp [avgWordLengthCorpus, hT]
  have hB : avgWordsPerSentence docs = 0 := by
    by_cases hS : 0 < totalSentences docs
    · simp [avgWordsPerSentence, hS, hT]
    · simp [avgWordsPerSentence, hS]
  refine ⟨rfl, hT, ?_, ?_, ?_, ?_, ?_, ?_⟩
  · show (corpusWords docs).dedup.length = 0
    simp [hw]
  · show top100Words docs = []
    simp only [top100Words, hlw]
    rfl
  · show topBigrams docs = []
    simp only [topBigrams, corpusBigrams, hw]
    rfl
  · show (⟨avgWordLengthCorpus docs, avgWordsPerSentence docs,
        avgWordLengthCorpus docs * avgWordsPerSentence docs⟩ : Readability) =
      ⟨0, 0, 0⟩
    rw [hA, hB]
    norm_num
  · intro hd
    subst hd
    rfl
  · intro h2 hnil
    have hnil' : documentSimilarity docs = [] := hnil
    rw [documentSimilarity] at hnil'
    have hlen := congrArg List.length hnil'
    rw [List.length_flatMap] at hlen
    obtain ⟨m, hm⟩ : ∃ m, docs.length = m + 1 + 1 := ⟨docs.length - 2, by omega⟩
    rw [hm, List.range_succ_eq_map] at hlen
    simp [List.length_drop] at hlen

/-- Witness for C5: the empty corpus yields an empty similarity list, and
the two-document zero-word corpus `[".", "."]` keeps all ranked lists
empty with zero ratios while still emitting a similarity record. -/
theorem claim_C5_degenerate_corpus_witness :
    (finalReport ([] : List String)).document_similarity = [] ∧
    (finalReport [".", "."]).documents_processed =
      ([".", "."] : List String).length ∧
    (finalReport [".", "."]).total_words = 0 ∧
    (finalReport [".", "."]).top_100_words = [] ∧
    (finalReport [".", "."]).top_bigrams = [] ∧
    (finalReport [".", "."]).readability = ⟨0, 0, 0⟩ ∧
    (finalReport [".", "."]).document_similarity ≠ [] :=
  ⟨(claim_C5_degenerate_corpus [] (by decide)).2.2.2.2.2.2.1 rfl,
   (claim_C5_degenerate_corpus [".", "."] (by decide)).1,
   (claim_C5_degenerate_corpus [".", "."] (by decide)).2.1,
   (claim_C5_degenerate_corpus [".", "."] (by decide)).2.2.2.1,
   (claim_C5_degenerate_corpus [".", "."] (by decide)).2.2.2.2.1,
   (claim_C5_degenerate_corpus [".", "."] (by decide)).2.2.2.2.2.1,
   (claim_C5_degenerate_corpus [".", "."] (by decide)).2.2.2.2.2.2.2 (by decide)⟩

/-- Counterexample for C5 as stated: `[".", "."]` is a corpus of two
documents with zero words, yet `document_similarity` is not empty — the
code still emits one record for the pair (with character-set similarity
1). -/
theorem claim_C5_counterexample :
    (∀ d ∈ ([".", "."] : List String), tokens d = []) ∧
    (finalReport [".", "."]).document_similarity =
      [⟨"page_0.json", "page_1.json", 1⟩] := by
  refine ⟨by decide, ?_⟩
  have hsim : jaccardSimilarity "." "." = 1 := by
    have h1 : (((".".data ++ ".".data) : List Char).dedup).isEmpty = false := by
      decide
    have h2 : ((".".data.dedup.filter (fun c => c ∈ ".".data.dedup)).length) = 1 := by
      decide
    have h3 : ((((".".data ++ ".".data) : List Char).dedup).length) = 1 := by
      decide
    rw [jaccardSimilarity, h1, h2, h3]
    norm_num
  show documentSimilarity [".", "."] = [⟨"page_0.json", "page_1.json", 1⟩]
  rw [show documentSimilarity [".", "."] =
    [⟨"page_0.json", "page_1.json", jaccardSimilarity "." "."⟩] from rfl, hsim]

/-! ### C9: the tokenizer is total, whitespace-insensitive at the ends,
and keeps hyphen/apostrophe-joined words together -/

/-- C9: the tokenizer (a total function, hence deterministic and
never-failing) sends the empty string to the empty sequence, tokenizes
`don't-stop` as a single token, and its token count is unchanged by
wrapping the input in extra leading/trailing whitespace. -/
theorem claim_C9_tokenizer_wrap (s w1 w2 : String)
    (h1 : ∀ c ∈ w1.data, isSpace c = true)
    (h2 : ∀ c ∈ w2.data, isSpace c = true) :
    tokens "" = [] ∧
    tokens (String.mk ['d', 'o', 'n', apos, 't', '-', 's', 't', 'o', 'p']) =
      [String.mk ['d', 'o', 'n', apos, 't', '-', 's', 't', 'o', 'p']] ∧
    (tokens (w1 ++ s ++ w2)).length = (tokens s).length := by
  refine ⟨by decide, by decide, ?_⟩
  simp only [tokens, List.length_map]
  have hdata : (w1 ++ s ++ w2).data = w1.data ++ (s.data ++ w2.data) := by
    simp [String.data_append, List.append_assoc]
  rw [hdata,
    tokCore_drop_leading w1.data _ (fun c hc => (isSpace_inert c (h1 c hc)).1),
    tokCore_drop_trailing s.data [] w2.data (fun c hc => isSpace_inert c (h2 c hc))]

/-- Witness for C9 at `s = "a b"` wrapped in `" "` and `"  "`. -/
theorem claim_C9_tokenizer_wrap_witness :
    tokens "" = [] ∧
    tokens (String.mk ['d', 'o', 'n', apos, 't', '-', 's', 't', 'o', 'p']) =
      [String.mk ['d', 'o', 'n', apos, 't', '-', 's', 't', 'o', 'p']] ∧
    (tokens (" " ++ "a b" ++ "  ")).length = (tokens "a b").length :=
  claim_C9_tokenizer_wrap "a b" " " "  " (by decide) (by decide)

/-! ### C7: per-document average word length never divides by zero -/

/-- C7: for every input text, `analyze_text` returns `avg_word_length = 0`
when the word count is zero, and the sum of token lengths divided by the
word count when it is positive; every ProcessedDocument's statistics are
`analyze_text` of its text, so the invariant holds for all of them. -/
theorem claim_C7_avg_word_length_guard (text : String) :
    ((analyzeText text).words = 0 → (analyzeText text).avg_word_length = 0) ∧
    (0 < (analyzeText text).words →
      (analyzeText text).avg_word_length =
        (((tokens text).map String.length).sum : ℚ) /
          ((analyzeText text).words : ℚ)) := by
  constructor
  · intro h
    simp only [analyzeText] at h ⊢
    rw [if_neg (by omega)]
  · intro h
    simp only [analyzeText] at h ⊢
    rw [if_pos h]

/-- Witness for C7 at the empty text (zero words) and at `"ab cde"`
(two words, average length `5/2`). -/
theorem claim_C7_avg_word_length_guard_witness :
    (analyzeText "").avg_word_length = 0 ∧
    (analyzeText "ab cde").avg_word_length =
      (((tokens "ab cde").map String.length).sum : ℚ) /
        ((analyzeText "ab cde").words : ℚ) :=
  ⟨(claim_C7_avg_word_length_guard "").1 (by decide),
   (claim_C7_avg_word_length_guard "ab cde").2 (by decide)⟩

/-! ### C1: pairwise similarity is character-level, not token-level -/

/-- C1: the analyze stage passes the raw text strings to
`jaccard_similarity`, so the computed value is the Jaccard similarity of
the documents' *character* sets.  For the documents `"a b c"` and
`"a b d"` it emits similarity `3/5`, while the Jaccard similarity of the
token sets — the value the claim specifies — is `1/2`. -/
theorem claim_C1_similarity_is_charwise :
    documentSimilarity ["a b c", "a b d"] =
      [⟨"page_0.json", "page_1.json", 3 / 5⟩] ∧
    specTokenJaccard "a b c" "a b d" = 1 / 2 ∧
    (3 / 5 : ℚ) ≠ 1 / 2 := by
  refine ⟨by rfl, ?_, by norm_num⟩
  have h1 : ((tokens "a b c" ++ tokens "a b d").dedup).isEmpty = false := by decide
  have h2 : ((tokens "a b c").dedup.filter
      (fun w => w ∈ (tokens "a b d").dedup)).length = 2 := by decide
  have h3 : ((tokens "a b c" ++ tokens "a b d").dedup).length = 4 := by decide
  rw [specTokenJaccard, h1, h2, h3]
  norm_num

/-! ### C2: the readability keys are swapped -/

/-- C2: in the final report the value stored under `avg_word_length` is
the words-per-sentence ratio and the value stored under
`avg_sentence_length` is the corpus-wide average token length — the two
keys are swapped relative to the claim.  For the single document
`"abc de"` the corpus average token length is `5/2` and the
words-per-sentence ratio is `2`, and the report stores them crosswise;
only `complexity_score` (the product) matches the claim. -/
theorem claim_C2_readability_keys_swapped :
    (finalReport ["abc de"]).readability.avg_word_length = 2 ∧
    (finalReport ["abc de"]).readability.avg_sentence_length = 5 / 2 ∧
    avgWordLengthCorpus ["abc de"] = 5 / 2 ∧
    avgWordsPerSentence ["abc de"] = 2 ∧
    (finalReport ["abc de"]).readability.complexity_score =
      avgWordLengthCorpus ["abc de"] * avgWordsPerSentence ["abc de"] ∧
    (2 : ℚ) ≠ 5 / 2 := by
  have hw : totalWords ["abc de"] = 2 := by decide
  have hs : totalSentences ["abc de"] = 1 := by decide
  have hl : ((corpusWords ["abc de"]).map String.length).sum = 5 := by decide
  have h1 : avgWordLengthCorpus ["abc de"] = 5 / 2 := by
    rw [avgWordLengthCorpus, hw, hl]; norm_num
  have h2 : avgWordsPerSentence ["abc de"] = 2 := by
    rw [avgWordsPerSentence, hw, hs]; norm_num
  exact ⟨h2, h1, h1, h2, rfl, by norm_num⟩

end Pipeline
